import Mathlib

/-!
Shallow embedding of the `lean-delivery/ansible-modules-aem` repository
(Ansible modules driving Adobe AEM administrative HTTP endpoints) and
verification of specification claims about it.

Each module is modelled as a pure function from the parsed contents of the
HTTP responses it would receive to the list of mutating requests it issues
and the exit it reports.  `ExitKind.ok b` models `module.exit_json(changed=b)`
and `ExitKind.fail msg` models `module.fail_json(msg=...)`.  Python crashes
(uncaught exceptions such as `KeyError`) are modelled with `Option` / `Except`.
The Python `sorted` builtin is modelled by `List.insertionSort` over a linear order;
`sorted(set(l))` is modelled by sorting `l.dedup` (after the final sort the
choice of dedup order is immaterial, both keep exactly one copy of each
element).
-/

namespace AemModules

/-- Python `sorted` on a list over a linear order. -/
def pySort {α : Type} [LinearOrder α] (l : List α) : List α :=
  l.insertionSort (· ≤ ·)

/-- Result reported back to Ansible: `exit_json(changed=...)` or `fail_json`. -/
inductive ExitKind : Type
  | ok (changed : Bool)
  | fail (msg : String)
  deriving DecidableEq, Repr

/-! ## Bundle module (`src/library/aem_bundle.py`) -/

/-- Actions supported by `aem_bundle` (the `action` module parameter). -/
inductive BndAction : Type
  | start
  | stop
  | refresh
  deriving DecidableEq, Repr

/-- Parsed responses the bundle module can receive: `fetchStatus` and
`fetchState` come from `_get_bnd_status` (`GET .../bundles/<name>.json`;
`fetchState` is the `data[0].state` field of its JSON body), `postStatus`
is the status of the mutating POST issued by `do_action`. -/
structure BndResp : Type where
  fetchStatus : Nat
  fetchState : String
  postStatus : Nat
  deriving DecidableEq, Repr

/-- A module execution: the mutating POSTs issued and the reported exit. -/
structure BndExec : Type where
  posts : List BndAction
  exit : ExitKind
  deriving DecidableEq, Repr

/-- `AEMBundle._get_bnd_status`: the `(exists, active)` flags derived from
the status fetch. -/
def getBndStatus (r : BndResp) : Bool × Bool :=
  if r.fetchStatus = 200 then (true, r.fetchState == "Active") else (false, false)

/-- `AEMBundle.apply_task` followed by `show_message`: which mutating POST
is issued (via `do_action`) and what exit the module reports. -/
def bundleModuleRun (a : BndAction) (r : BndResp) : BndExec :=
  let st := getBndStatus r
  if st.1 then
    let doPost : Bool :=
      match a with
      | .start => !st.2
      | .stop => st.2
      | .refresh => true
    if doPost then
      if r.postStatus = 200 then ⟨[a], .ok true⟩
      else ⟨[a], .fail "failed to perform action on bundle"⟩
    else ⟨[], .ok false⟩
  else ⟨[], .fail "cant find bundle"⟩

/-- Effect of a successful bundle action POST on the active state of the
remote bundle (AEM semantics, external to the repository: `start` activates,
`stop` deactivates, `refresh` leaves the activation state unchanged). -/
def bndServerAfter (a : BndAction) (active : Bool) : Bool :=
  match a with
  | .start => true
  | .stop => false
  | .refresh => active

/-- The status response a server serves for a bundle that is `none`
(missing, fetch does not return 200) or `some active`. -/
def bndStateResp (server : Option Bool) (postStatus : Nat) : BndResp :=
  match server with
  | some b => ⟨200, if b then "Active" else "Resolved", postStatus⟩
  | none => ⟨404, "", postStatus⟩

/-- One full invocation of the bundle module against a server holding the
bundle in state `server`, with every HTTP request answered 200; returns
the module execution and the server state it leaves behind. -/
def bundleStep (a : BndAction) (server : Option Bool) : BndExec × Option Bool :=
  let e := bundleModuleRun a (bndStateResp server 200)
  (e, match server, e.posts with
      | some b, _ :: _ => some (bndServerAfter a b)
      | s, _ => s)

/-! ## OSGi module (`src/aem_osgi.py`), non-factory modes -/

/-- The non-factory values of the `osgimode` parameter. -/
inductive OsgiMode : Type
  | string
  | array
  | arrayappend
  deriving DecidableEq, Repr

/-- A property value as fetched from the config manager JSON: a scalar
(under the `value` key) or an array (under the `values` key).  Array
elements are YAML scalars; we keep their type `ε` abstract, requiring only
the total order Python `sorted` needs. -/
inductive PVal (ε : Type) : Type
  | s (v : String)
  | arr (vs : List ε)
  deriving DecidableEq, Repr

variable {ε : Type} [LinearOrder ε] [DecidableEq ε]

/-- The non-scalar current value is sorted first (`present`, line 337), so
for `array` the comparison is `sorted(current) != sorted(value)` on an
already sorted `current`, and for `arrayappend` it is
`sorted(set(sorted(current + value))) != current`.  `none` models the
`KeyError` Python raises when the fetched shape does not fit the mode. -/
def osgiDoUpdate : OsgiMode → PVal ε → PVal ε → Option Bool
  | .string, .s cur, .s des => some (decide (cur ≠ des))
  | .array, .arr vs, .arr des => some (decide (pySort (pySort vs) ≠ pySort des))
  | .arrayappend, .arr vs, .arr des =>
      some (decide (pySort (pySort (pySort vs ++ des)).dedup ≠ pySort vs))
  | _, _, _ => none

/-- The Python append loop in `update_property` for `arrayappend`: each
desired item is appended when not already present, checking against the
growing list (so desired duplicates are collapsed too). -/
def appendNew {α : Type} [DecidableEq α] (cur : List α) : List α → List α
  | [] => cur
  | d :: ds => appendNew (if d ∈ cur then cur else cur ++ [d]) ds

/-- The value `update_property` posts for the target property. -/
def targetVal : OsgiMode → PVal ε → PVal ε → Option (PVal ε)
  | .arrayappend, .arr raw, .arr des => some (.arr (appendNew raw des))
  | .arrayappend, _, _ => none
  | .string, _, des => some des
  | .array, _, des => some des

/-- A form field of the update POST: a scalar or a repeated (list) field. -/
inductive FieldV (ε : Type) : Type
  | fs (v : String)
  | fl (vs : List ε)
  deriving DecidableEq, Repr

def toFieldVal : PVal ε → FieldV ε
  | .s v => .fs v
  | .arr vs => .fl vs

def joinComma (l : List String) : String := String.intercalate "," l

/-- The per-property fields of `update_property`: every current property
key with its current value, the target property with `targetVal`. -/
def updatePostedProps (prop : String) (mode : OsgiMode) (desired : PVal ε) :
    List (String × PVal ε) → Option (List (String × PVal ε))
  | [] => some []
  | kv :: rest => do
      let hd ← if kv.1 = prop then
          (targetVal mode kv.2 desired).map (fun tv => (kv.1, tv))
        else some kv
      let tl ← updatePostedProps prop mode desired rest
      return hd :: tl

/-- The complete field list of the update POST issued by `update_property`:
`apply`, `action`, one field per current property, and `propertylist`
joining every current property key. -/
def updateRequestFields (props : List (String × PVal ε)) (prop : String)
    (mode : OsgiMode) (desired : PVal ε) : Option (List (String × FieldV ε)) :=
  (updatePostedProps prop mode desired props).map (fun posted =>
    ("apply", FieldV.fs "true") :: ("action", FieldV.fs "ajaxConfigManager") ::
    (posted.map (fun kv => (kv.1, toFieldVal kv.2)) ++
      [("propertylist", FieldV.fs (joinComma (props.map Prod.fst)))]))

/-- Remote configuration after a successful update POST: the posted values
are applied, i.e. the target property now holds `tv` and every other
property keeps its current value (AEM semantics of the config POST). -/
def setProp (props : List (String × PVal ε)) (prop : String) (tv : PVal ε) :
    List (String × PVal ε) :=
  props.map (fun kv => if kv.1 = prop then (kv.1, tv) else kv)

/-- `AEMOsgi.present` for the non-factory modes, with the update POST (when
issued) answered 200 and check mode off.  Returns whether a mutating POST
was issued and the remote property map afterwards; `none` models a Python
crash (missing property or shape mismatch). -/
def osgiPresentRun (props : List (String × PVal ε)) (prop : String)
    (mode : OsgiMode) (desired : PVal ε) : Option (Bool × List (String × PVal ε)) := do
  let pv ← props.lookup prop
  let b ← osgiDoUpdate mode pv desired
  if b then do
    let tv ← targetVal mode pv desired
    return (true, setProp props prop tv)
  else
    return (false, props)

/-! ## Password module (`src/library/aem_password.py`) -/

/-- A password-module execution: `changePost = some (oldPw, newPw)` when
the change POST of `set_password` is issued (authenticated with `oldPw`,
carrying `old = oldPw`, `plain = verify = newPw`), together with the
reported exit. -/
structure PwExec : Type where
  changePost : Option (String × String)
  exit : ExitKind
  deriving DecidableEq, Repr

/-- The probe loop of `get_user_info`: the first candidate password whose
authenticated GET returns 200 (the loop `break`s at the first hit). -/
def firstValid (auth : String → Nat) : List String → Option String
  | [] => none
  | p :: ps => if auth p = 200 then some p else firstValid auth ps

/-- One full run of the password module with check mode off:
`get_user_info` (new-password probe, then the candidate loop) followed by
`set_password` and `exit_status`.  `auth p` is the HTTP status of the
probe GET authenticated with password `p`; `setStatus` is the status of
the change POST. -/
def passwordModuleRun (auth : String → Nat) (newPassword : String)
    (oldList : List String) (ignoreErr : Bool) (setStatus : Nat) : PwExec :=
  if auth newPassword = 200 then
    ⟨none, .ok false⟩
  else
    match firstValid auth oldList with
    | some oldPw =>
        if setStatus = 200 then ⟨some (oldPw, newPassword), .ok true⟩
        else ⟨some (oldPw, newPassword), .fail "failed to change password"⟩
    | none =>
        if ignoreErr then ⟨none, .ok false⟩
        else ⟨none, .fail "Neither old nor new passwords are valid"⟩

/-! ## Package manager module (`src/library/aem_packmgr.py`) -/

/-- Requests the packmgr module can issue, in order. -/
inductive PkgReq : Type
  | listPkgs
  | validate
  | upload
  | installCmd (name : String)
  | removeCmd (name : String)
  deriving DecidableEq, Repr

/-- Parsed `cmd=ls` response for `_pgk_exist`: the package `name` texts and
`downloadName` texts; the HTTP status code is also recorded, though the
Python function never reads it. -/
structure PkgListResp : Type where
  status : Nat
  names : List String
  downloadNames : List String
  deriving DecidableEq, Repr

/-- `_pgk_exist`: the package name is a member of either parsed list; the
response status is never consulted. -/
def pgkExist (resp : PkgListResp) (pkgName : String) : Bool :=
  resp.names.contains pkgName || resp.downloadNames.contains pkgName

/-- An XML response of the package manager service: the `response/status`
`code` attribute (a string in the XML) and the
`response/data/package/name` text. -/
structure PkgXmlResp : Type where
  code : String
  name : String
  deriving DecidableEq, Repr

/-- `_pkg_install`: upload; if the upload code is the string 200, install under
the name returned by the upload response; if the install code is not
the string 200, remove that uploaded package and report failure. -/
def pkgInstall (upResp : PkgXmlResp) (instCode : String) : List PkgReq × Bool :=
  if upResp.code = "200" then
    if instCode = "200" then ([.upload, .installCmd upResp.name], true)
    else ([.upload, .installCmd upResp.name, .removeCmd upResp.name], false)
  else ([.upload], false)

/-- `main` for `state=present`: the existence check (short-circuited away
by `aem_force`), optional validation, then `_pkg_install`; a validation or
install failure is fatal, success reports changed. -/
def packmgrPresentRun (force : Bool) (listResp : PkgListResp)
    (pkgName : String) (validateOn : Bool) (validateCode : String)
    (upResp : PkgXmlResp) (instCode : String) : List PkgReq × ExitKind :=
  let checkReqs : List PkgReq := if force then [] else [.listPkgs]
  if force ∨ pgkExist listResp pkgName = false then
    if validateOn ∧ validateCode ≠ "200" then
      (checkReqs ++ [.validate], .fail "validation of package is failed")
    else
      let validateReqs : List PkgReq := if validateOn then [.validate] else []
      let r := pkgInstall upResp instCode
      if r.2 then (checkReqs ++ validateReqs ++ r.1, .ok true)
      else (checkReqs ++ validateReqs ++ r.1, .fail "Installation package is failed")
  else (checkReqs, .ok false)

/-! ## User module (`src/aem_user.py`) -/

/-- `AEMUser.__init__`: the group `everyone` is appended to the desired
groups when not already listed. -/
def effectiveGroups (groups : List String) : List String :=
  if "everyone" ∈ groups then groups else groups ++ ["everyone"]

/-- `AEMUser.create_user` form fields (check mode off, password given):
one `membership` field per desired group. -/
def createUserFields (userId firstName lastName password : String)
    (groups : List String) : List (String × String) :=
  [("createUser", ""), ("authorizableId", userId),
   ("profile/givenName", firstName), ("profile/familyName", lastName),
   ("rep:password", password)] ++ groups.map (fun g => ("membership", g))

/-! ## OSGi factory matcher (`src/aem_osgi.py`, `find_factory_match`) -/

/-- A desired factory field value as produced by `yaml.load`: a string, an
integer, or a list of strings. -/
inductive FVal : Type
  | str (v : String)
  | int (n : Int)
  | list (l : List String)
  deriving DecidableEq, Repr

/-- The canonicalization `find_factory_match` applies to a desired value
before comparing with the `Configurations.txt` text: integers via `str`,
lists via `str` with the quote characters stripped (for elements without
quote characters this is the bracketed comma-space join). -/
def canonV : FVal → String
  | .str v => v
  | .int n => toString n
  | .list l => "[" ++ String.intercalate ", " l ++ "]"

/-- One factory instance parsed from `Configurations.txt`: its key-value
lines. -/
abbrev FInstance := List (String × String)

/-- The inner loop of `find_factory_match`: count the desired fields whose
canonicalized value equals the instance text; a desired key missing from
the instance raises `KeyError` (modelled as `error`). -/
def vMatchCount (inst : FInstance) : List (String × FVal) → Except Unit Nat
  | [] => .ok 0
  | (k, v) :: rest =>
      match inst.lookup k with
      | none => .error ()
      | some w =>
          match vMatchCount inst rest with
          | .error e => .error e
          | .ok n => .ok (if canonV v = w then n + 1 else n)

/-- Specification-side matching predicate: the instance agrees with every
desired field. -/
def instAgrees (inst : FInstance) (value : List (String × FVal)) : Bool :=
  value.all (fun kv => decide (inst.lookup kv.1 = some (canonV kv.2)))

/-- The outer loop of `find_factory_match`: the `f_match` counter and
`factory`, the name of the last fully matching instance. -/
def fMatchLoop (value : List (String × FVal)) :
    Nat → String → List (String × FInstance) → Except Unit (Nat × String)
  | c, fac, [] => .ok (c, fac)
  | c, fac, (f, d) :: rest =>
      match vMatchCount d value with
      | .error e => .error e
      | .ok n =>
          if n = value.length then fMatchLoop value (c + 1) f rest
          else fMatchLoop value c fac rest

/-- The result of `find_factory_match`: `noMatch` models `return False`,
`unique f` models `return True` with `self.factory = f`, `ambiguous`
models the `fail_json` on more than one match. -/
inductive FMatch : Type
  | noMatch
  | unique (name : String)
  | ambiguous
  deriving DecidableEq, Repr

def findFactoryMatch (instances : List (String × FInstance))
    (value : List (String × FVal)) : Except Unit FMatch :=
  match fMatchLoop value 0 "" instances with
  | .error e => .error e
  | .ok (0, _) => .ok .noMatch
  | .ok (1, f) => .ok (.unique f)
  | .ok _ => .ok .ambiguous

/-- The last element of a list, or a default: how the `factory` variable
of the matcher loop evolves. -/
def lastD : List String → String → String
  | [], d => d
  | x :: xs, _ => lastD xs x

/-! ## Generic lemmas about `pySort`, `dedup` and `appendNew` -/

theorem pySort_sorted {α : Type} [LinearOrder α] (l : List α) :
    (pySort l).Sorted (· ≤ ·) :=
  List.sorted_insertionSort _ l

theorem pySort_perm {α : Type} [LinearOrder α] (l : List α) : List.Perm (pySort l) l :=
  List.perm_insertionSort _ l

theorem pySort_eq_of_sorted {α : Type} [LinearOrder α] {l : List α}
    (h : l.Sorted (· ≤ ·)) : pySort l = l :=
  h.insertionSort_eq

theorem pySort_idem {α : Type} [LinearOrder α] (l : List α) :
    pySort (pySort l) = pySort l :=
  pySort_eq_of_sorted (pySort_sorted l)

theorem pySort_eq_pySort_of_perm {α : Type} [LinearOrder α] {l₁ l₂ : List α}
    (h : List.Perm l₁ l₂) : pySort l₁ = pySort l₂ :=
  List.eq_of_perm_of_sorted ((pySort_perm l₁).trans (h.trans (pySort_perm l₂).symm))
    (pySort_sorted l₁) (pySort_sorted l₂)

theorem pySort_nodup {α : Type} [LinearOrder α] {l : List α} (h : l.Nodup) :
    (pySort l).Nodup :=
  ((pySort_perm l).nodup_iff).2 h

/-- The quantity the `arrayappend` branch compares against the sorted
current array equals the sorted dedup of the plain concatenation. -/
theorem combuniq_eq_sort_dedup_append {α : Type} [LinearOrder α] [DecidableEq α]
    (raw des : List α) :
    pySort (pySort (pySort raw ++ des)).dedup = pySort (raw ++ des).dedup := by
  apply pySort_eq_pySort_of_perm
  exact ((pySort_perm _).dedup).trans (((pySort_perm raw).append_right des).dedup)

/-- `sorted(set(sorted(current) + desired))` equals the sorted current array
when the current array has no duplicates and every desired element already
occurs in it. -/
theorem combuniq_eq_current {α : Type} [LinearOrder α] [DecidableEq α] {raw des : List α}
    (hnd : raw.Nodup) (hsub : ∀ x ∈ des, x ∈ raw) :
    pySort (pySort (pySort raw ++ des)).dedup = pySort raw := by
  have hnd' : (pySort raw).Nodup := pySort_nodup hnd
  have h2 : List.Perm (pySort raw ++ des).dedup (pySort raw) := by
    apply (List.perm_ext_iff_of_nodup (List.nodup_dedup _) hnd').2
    intro a
    simp only [List.mem_dedup, List.mem_append]
    constructor
    · rintro (h | h)
      · exact h
      · exact ((pySort_perm raw).mem_iff).2 (hsub a h)
    · exact Or.inl
  calc pySort (pySort (pySort raw ++ des)).dedup
      = pySort ((pySort raw ++ des)).dedup := by
        exact pySort_eq_pySort_of_perm ((pySort_perm _).dedup)
    _ = pySort (pySort raw) := pySort_eq_pySort_of_perm h2
    _ = pySort raw := pySort_idem raw

theorem appendNew_mem_of_mem_cur {α : Type} [DecidableEq α] {x : α}
    {cur : List α} (des : List α) (h : x ∈ cur) : x ∈ appendNew cur des := by
  induction des generalizing cur with
  | nil => exact h
  | cons d ds ih =>
    simp only [appendNew]
    by_cases hd : d ∈ cur
    · simp only [if_pos hd]; exact ih h
    · simp only [if_neg hd]; exact ih (List.mem_append_left _ h)

theorem appendNew_mem_of_mem_des {α : Type} [DecidableEq α] {x : α}
    {cur des : List α} (h : x ∈ des) : x ∈ appendNew cur des := by
  induction des generalizing cur with
  | nil => cases h
  | cons d ds ih =>
    simp only [appendNew]
    rcases List.mem_cons.1 h with rfl | hx
    · by_cases hd : x ∈ cur
      · simp only [if_pos hd]; exact appendNew_mem_of_mem_cur ds hd
      · simp only [if_neg hd]
        exact appendNew_mem_of_mem_cur ds (List.mem_append_right _ (List.mem_singleton.2 rfl))
    · exact ih hx

theorem appendNew_nodup {α : Type} [DecidableEq α] {cur des : List α}
    (h : cur.Nodup) : (appendNew cur des).Nodup := by
  induction des generalizing cur with
  | nil => exact h
  | cons d ds ih =>
    simp only [appendNew]
    by_cases hd : d ∈ cur
    · simp only [if_pos hd]; exact ih h
    · simp only [if_neg hd]
      refine ih ?_
      simp [List.nodup_append, h, hd]

omit [LinearOrder ε] [DecidableEq ε] in
/-- Looking up the target property after the posted configuration has been
applied yields the posted target value. -/
theorem lookup_setProp {props : List (String × PVal ε)} {prop : String}
    {pv : PVal ε} (tv : PVal ε) (h : props.lookup prop = some pv) :
    (setProp props prop tv).lookup prop = some tv := by
  induction props with
  | nil => cases h
  | cons kv rest ih =>
    obtain ⟨k, v⟩ := kv
    by_cases hk : k = prop
    · subst hk
      have hstep : setProp ((k, v) :: rest) k tv = (k, tv) :: setProp rest k tv := by
        simp [setProp]
      rw [hstep]
      simp [List.lookup_cons]
    · have hne : (prop == k) = false := by
        simp only [beq_eq_false_iff_ne]
        exact fun e => hk e.symm
      have hstep : setProp ((k, v) :: rest) prop tv = (k, v) :: setProp rest prop tv := by
        simp [setProp, hk]
      rw [hstep]
      rw [List.lookup_cons, hne] at h ⊢
      exact ih h

/-- `AEMOsgi.present` in `string` mode: update exactly when the current
scalar differs from the desired one. -/
theorem osgiPresentRun_string {props : List (String × PVal ε)} {prop : String}
    {cur des : String} (hl : props.lookup prop = some (.s cur)) :
    osgiPresentRun props prop .string (.s des) =
      if cur = des then some (false, props)
      else some (true, setProp props prop (.s des)) := by
  by_cases h : cur = des <;>
    simp [osgiPresentRun, hl, osgiDoUpdate, targetVal, h]

/-- `AEMOsgi.present` in `array` mode: update exactly when the sorted
current array differs from the sorted desired array. -/
theorem osgiPresentRun_array {props : List (String × PVal ε)} {prop : String}
    {vs des : List ε} (hl : props.lookup prop = some (.arr vs)) :
    osgiPresentRun props prop .array (.arr des) =
      if pySort (pySort vs) = pySort des then some (false, props)
      else some (true, setProp props prop (.arr des)) := by
  by_cases h : pySort (pySort vs) = pySort des <;>
    simp [osgiPresentRun, hl, osgiDoUpdate, targetVal, h]

/-- `AEMOsgi.present` in `arrayappend` mode: update exactly when
`sorted(set(sorted(current) + desired))` differs from the sorted current
array, and then post the append of the missing desired items. -/
theorem osgiPresentRun_arrayappend {props : List (String × PVal ε)} {prop : String}
    {vs des : List ε} (hl : props.lookup prop = some (.arr vs)) :
    osgiPresentRun props prop .arrayappend (.arr des) =
      if pySort (pySort (pySort vs ++ des)).dedup = pySort vs then some (false, props)
      else some (true, setProp props prop (.arr (appendNew vs des))) := by
  by_cases h : pySort (pySort (pySort vs ++ des)).dedup = pySort vs <;>
    simp [osgiPresentRun, hl, osgiDoUpdate, targetVal, h]

/-! ## Claim theorems (bundle) -/

/-- Claim C3: when the named bundle exists, action `start` issues the
mutating POST iff the current state is not `Active`, `stop` iff it is
`Active`, and `refresh` unconditionally; when the status fetch does not
return 200 the module fails without issuing any action. -/
theorem C3_bundle_action_conditions (a : BndAction) (r : BndResp) :
    (r.fetchStatus ≠ 200 →
      bundleModuleRun a r = ⟨[], .fail "cant find bundle"⟩) ∧
    (r.fetchStatus = 200 →
      (a = .start → ((bundleModuleRun a r).posts ≠ [] ↔ r.fetchState ≠ "Active")) ∧
      (a = .stop → ((bundleModuleRun a r).posts ≠ [] ↔ r.fetchState = "Active")) ∧
      (a = .refresh → (bundleModuleRun a r).posts = [a])) := by
  constructor
  · intro h
    simp [bundleModuleRun, getBndStatus, h]
  · intro h
    refine ⟨?_, ?_, ?_⟩ <;> intro ha <;> subst ha <;>
      by_cases hs : r.fetchState = "Active" <;>
      by_cases hp : r.postStatus = 200 <;>
      simp [bundleModuleRun, getBndStatus, h, hs, hp]

/-- Witness for C3 at a concrete response. -/
theorem C3_bundle_action_conditions_witness :
    bundleModuleRun .start ⟨200, "Resolved", 200⟩ = ⟨[.start], .ok true⟩ ∧
    ((bundleModuleRun .start ⟨200, "Resolved", 200⟩).posts ≠ [] ↔
      ("Resolved" : String) ≠ "Active") := by
  refine ⟨by decide, ?_⟩
  exact (C3_bundle_action_conditions .start ⟨200, "Resolved", 200⟩).2 rfl |>.1 rfl

/-- Claim C7: in `arrayappend` mode a mutating POST is issued iff the
sorted deduplicated union of the current array and the desired values
differs from the sorted current array; in particular for a duplicate-free
current array containing every desired element no update occurs. -/
theorem C7_arrayappend_update_iff (props : List (String × PVal ε)) (prop : String)
    (vs des : List ε) (b : Bool) (props1 : List (String × PVal ε))
    (hl : props.lookup prop = some (.arr vs))
    (hrun : osgiPresentRun props prop .arrayappend (.arr des) = some (b, props1)) :
    (b = true ↔ pySort (vs ++ des).dedup ≠ pySort vs) ∧
    (vs.Nodup → (∀ x ∈ des, x ∈ vs) → b = false) := by
  rw [osgiPresentRun_arrayappend hl, combuniq_eq_sort_dedup_append] at hrun
  by_cases hc : pySort (vs ++ des).dedup = pySort vs
  · rw [if_pos hc] at hrun
    obtain ⟨hb, _⟩ := Prod.mk.injEq .. ▸ Option.some.injEq .. ▸ hrun
    constructor
    · constructor
      · intro ht; rw [← hb] at ht; cases ht
      · intro hne; exact absurd hc hne
    · intro _ _; exact hb.symm ▸ rfl
  · rw [if_neg hc] at hrun
    obtain ⟨hb, _⟩ := Prod.mk.injEq .. ▸ Option.some.injEq .. ▸ hrun
    constructor
    · exact ⟨fun _ => hc, fun _ => hb.symm⟩
    · intro hnd hsub
      exfalso
      apply hc
      rw [← combuniq_eq_sort_dedup_append]
      exact combuniq_eq_current hnd hsub

/-- Witness for C7: current `[1, 2]`, desired `[2]`: no update. -/
theorem C7_arrayappend_update_iff_witness :
    ([("p", PVal.arr [1, 2])] : List (String × PVal Nat)).lookup "p" =
        some (.arr [1, 2]) ∧
    osgiPresentRun [("p", PVal.arr [1, 2])] "p" .arrayappend (.arr [2]) =
        some (false, [("p", PVal.arr [1, 2])]) ∧
    (false : Bool) = false := by
  refine ⟨by decide, by decide, ?_⟩
  exact (C7_arrayappend_update_iff [("p", PVal.arr [1, 2])] "p" [1, 2] [2]
    false [("p", PVal.arr [1, 2])] (by decide) (by decide)).2 (by decide) (by decide)

/-- Claim C1 is false as stated: for the bundle module with action
`refresh` (a fixed desired state) against an existing active bundle, the
second invocation still issues the mutating POST and still reports
`changed=true`. -/
theorem C1_per_module_idempotence_counterexample :
    (bundleStep .refresh (some true)).1.exit = .ok true ∧
    (bundleStep .refresh ((bundleStep .refresh (some true)).2)).1.posts =
      [.refresh] ∧
    (bundleStep .refresh ((bundleStep .refresh (some true)).2)).1.exit =
      .ok true := by
  decide

/-- Claim C1 amended: the two-invocation idempotence holds for the bundle
module restricted to actions `start` and `stop` (first call reports
`changed` exactly when the desired activation state differs, second call
reports unchanged and issues no mutating POST), and for the OSGi module in
`string` and `array` modes, and in `arrayappend` mode when the current
array has no duplicates (the second invocation issues no update POST);
it fails for bundle `refresh`, for the group module root-group and
permission POSTs (issued on every invocation), and for `arrayappend` on a
current array containing duplicates. -/
theorem C1_per_module_idempotence_amended (ε : Type) [LinearOrder ε]
    [DecidableEq ε] :
    (∀ (a : BndAction) (active : Bool), a ≠ .refresh →
      ((bundleStep a (some active)).1.exit =
          .ok (bndServerAfter a active != active) ∧
       ((bundleStep a (some active)).1.posts = [] ↔
          bndServerAfter a active = active) ∧
       (bundleStep a ((bundleStep a (some active)).2)).1.posts = [] ∧
       (bundleStep a ((bundleStep a (some active)).2)).1.exit = .ok false)) ∧
    (∀ (props : List (String × PVal ε)) (prop : String) (cur des : String)
        (b : Bool) (props1 : List (String × PVal ε)),
      props.lookup prop = some (.s cur) →
      osgiPresentRun props prop .string (.s des) = some (b, props1) →
      osgiPresentRun props1 prop .string (.s des) = some (false, props1)) ∧
    (∀ (props : List (String × PVal ε)) (prop : String) (vs des : List ε)
        (b : Bool) (props1 : List (String × PVal ε)),
      props.lookup prop = some (.arr vs) →
      osgiPresentRun props prop .array (.arr des) = some (b, props1) →
      osgiPresentRun props1 prop .array (.arr des) = some (false, props1)) ∧
    (∀ (props : List (String × PVal ε)) (prop : String) (vs des : List ε)
        (b : Bool) (props1 : List (String × PVal ε)),
      vs.Nodup →
      props.lookup prop = some (.arr vs) →
      osgiPresentRun props prop .arrayappend (.arr des) = some (b, props1) →
      osgiPresentRun props1 prop .arrayappend (.arr des) =
        some (false, props1)) := by
  refine ⟨?_, ?_, ?_, ?_⟩
  · intro a active h
    cases a with
    | refresh => exact absurd rfl h
    | start => cases active <;> exact ⟨by decide, by decide, by decide, by decide⟩
    | stop => cases active <;> exact ⟨by decide, by decide, by decide, by decide⟩
  · intro props prop cur des b props1 hl hrun
    rw [osgiPresentRun_string hl] at hrun
    by_cases h : cur = des
    · rw [if_pos h] at hrun
      simp only [Option.some.injEq, Prod.mk.injEq] at hrun
      obtain ⟨hb, hp⟩ := hrun
      subst hp
      rw [osgiPresentRun_string hl, if_pos h]
    · rw [if_neg h] at hrun
      simp only [Option.some.injEq, Prod.mk.injEq] at hrun
      obtain ⟨hb, hp⟩ := hrun
      subst hp
      have hl2 := lookup_setProp (PVal.s des) hl
      rw [osgiPresentRun_string hl2, if_pos rfl]
  · intro props prop vs des b props1 hl hrun
    rw [osgiPresentRun_array hl] at hrun
    by_cases h : pySort (pySort vs) = pySort des
    · rw [if_pos h] at hrun
      simp only [Option.some.injEq, Prod.mk.injEq] at hrun
      obtain ⟨hb, hp⟩ := hrun
      subst hp
      rw [osgiPresentRun_array hl, if_pos h]
    · rw [if_neg h] at hrun
      simp only [Option.some.injEq, Prod.mk.injEq] at hrun
      obtain ⟨hb, hp⟩ := hrun
      subst hp
      have hl2 := lookup_setProp (PVal.arr des) hl
      rw [osgiPresentRun_array hl2, if_pos (pySort_idem des)]
  · intro props prop vs des b props1 hnd hl hrun
    rw [osgiPresentRun_arrayappend hl] at hrun
    by_cases h : pySort (pySort (pySort vs ++ des)).dedup = pySort vs
    · rw [if_pos h] at hrun
      simp only [Option.some.injEq, Prod.mk.injEq] at hrun
      obtain ⟨hb, hp⟩ := hrun
      subst hp
      rw [osgiPresentRun_arrayappend hl, if_pos h]
    · rw [if_neg h] at hrun
      simp only [Option.some.injEq, Prod.mk.injEq] at hrun
      obtain ⟨hb, hp⟩ := hrun
      subst hp
      have hl2 := lookup_setProp (PVal.arr (appendNew vs des)) hl
      have hfix : pySort (pySort (pySort (appendNew vs des) ++ des)).dedup =
          pySort (appendNew vs des) :=
        combuniq_eq_current (appendNew_nodup hnd)
          (fun x hx => appendNew_mem_of_mem_des hx)
      rw [osgiPresentRun_arrayappend hl2, if_pos hfix]

/-- Witness for the amended C1 at a concrete state: starting a stopped
bundle reports changed, the second start issues nothing and reports
unchanged. -/
theorem C1_per_module_idempotence_amended_witness :
    (bundleStep .start (some false)).1.exit = .ok true ∧
    (bundleStep .start ((bundleStep .start (some false)).2)).1.posts = [] ∧
    (bundleStep .start ((bundleStep .start (some false)).2)).1.exit =
      .ok false := by
  have h := (C1_per_module_idempotence_amended Nat).1 .start false (by decide)
  exact ⟨h.1, h.2.2.1, h.2.2.2⟩

omit [LinearOrder ε] in
/-- Every non-target property is carried over unchanged into the posted
property list of `update_property`. -/
theorem updatePostedProps_mem_other {prop : String} {mode : OsgiMode}
    {desired : PVal ε} {props posted : List (String × PVal ε)}
    (h : updatePostedProps prop mode desired props = some posted) :
    ∀ k v, (k, v) ∈ props → k ≠ prop → (k, v) ∈ posted := by
  induction props generalizing posted with
  | nil =>
    intro k v hkv
    cases hkv
  | cons kv rest ih =>
    intro k v hkv hne
    by_cases hk : kv.1 = prop
    · cases ht : targetVal mode kv.2 desired with
      | none =>
        rw [updatePostedProps] at h
        simp [hk, ht] at h
      | some tv =>
        rw [updatePostedProps] at h
        simp only [hk, if_pos, ht, Option.map_some', Option.bind_eq_bind, Option.pure_def, Option.some_bind] at h
        cases hrec : updatePostedProps prop mode desired rest with
        | none => rw [hrec] at h; cases h
        | some tl =>
          rw [hrec] at h
          simp only [Option.bind_eq_bind, Option.pure_def, Option.some_bind, Option.some.injEq] at h
          subst h
          rcases List.mem_cons.1 hkv with rfl | hx
          · exact absurd hk (by simpa using hne)
          · exact List.mem_cons_of_mem _ (ih hrec k v hx hne)
    · rw [updatePostedProps] at h
      simp only [hk, if_neg, if_false, Option.bind_eq_bind, Option.pure_def, Option.some_bind] at h
      cases hrec : updatePostedProps prop mode desired rest with
      | none => rw [hrec] at h; cases h
      | some tl =>
        rw [hrec] at h
        simp only [Option.bind_eq_bind, Option.pure_def, Option.some_bind, Option.some.injEq] at h
        subst h
        rcases List.mem_cons.1 hkv with rfl | hx
        · exact List.mem_cons_self _ _
        · exact List.mem_cons_of_mem _ (ih hrec k v hx hne)

omit [LinearOrder ε] in
/-- The target property is posted with its `targetVal`. -/
theorem updatePostedProps_mem_target {prop : String} {mode : OsgiMode}
    {desired : PVal ε} {props posted : List (String × PVal ε)}
    (h : updatePostedProps prop mode desired props = some posted) :
    ∀ pv tv, (prop, pv) ∈ props → targetVal mode pv desired = some tv →
      (prop, tv) ∈ posted := by
  induction props generalizing posted with
  | nil =>
    intro pv tv hkv
    cases hkv
  | cons kv rest ih =>
    intro pv tv hkv ht
    by_cases hk : kv.1 = prop
    · cases ht2 : targetVal mode kv.2 desired with
      | none =>
        rw [updatePostedProps] at h
        simp [hk, ht2] at h
      | some tv2 =>
        rw [updatePostedProps] at h
        simp only [hk, if_pos, ht2, Option.map_some', Option.some_bind] at h
        cases hrec : updatePostedProps prop mode desired rest with
        | none => rw [hrec] at h; cases h
        | some tl =>
          rw [hrec] at h
          simp only [Option.bind_eq_bind, Option.pure_def, Option.some_bind, Option.some.injEq] at h
          subst h
          rcases List.mem_cons.1 hkv with heq | hx
          · have h1 : kv.2 = pv := congrArg Prod.snd heq.symm
            rw [h1, ht] at ht2
            obtain rfl := Option.some.inj ht2
            exact List.mem_cons_self _ _
          · exact List.mem_cons_of_mem _ (ih hrec pv tv hx ht)
    · rw [updatePostedProps] at h
      simp only [hk, if_neg, if_false, Option.bind_eq_bind, Option.pure_def, Option.some_bind] at h
      cases hrec : updatePostedProps prop mode desired rest with
      | none => rw [hrec] at h; cases h
      | some tl =>
        rw [hrec] at h
        simp only [Option.bind_eq_bind, Option.pure_def, Option.some_bind, Option.some.injEq] at h
        subst h
        rcases List.mem_cons.1 hkv with heq | hx
        · exact absurd (congrArg Prod.fst heq.symm) hk
        · exact List.mem_cons_of_mem _ (ih hrec pv tv hx ht)

omit [LinearOrder ε] in
/-- Claim C6: when an update is needed the OSGi module POSTs the complete
current property map: every non-target property is sent with its current
value, the target property carries the desired value (the deduplicated
appended array in `arrayappend` mode), and `propertylist` names every
current property key. -/
theorem C6_update_posts_full_property_map (props : List (String × PVal ε))
    (prop : String) (mode : OsgiMode) (desired : PVal ε)
    (fields : List (String × FieldV ε))
    (hf : updateRequestFields props prop mode desired = some fields) :
    (∀ k v, (k, v) ∈ props → k ≠ prop → (k, toFieldVal v) ∈ fields) ∧
    (∀ pv tv, (prop, pv) ∈ props → targetVal mode pv desired = some tv →
        (prop, toFieldVal tv) ∈ fields) ∧
    ("propertylist", FieldV.fs (joinComma (props.map Prod.fst))) ∈ fields ∧
    (∀ (raw des : List ε),
        targetVal (ε := ε) .arrayappend (.arr raw) (.arr des) =
          some (.arr (appendNew raw des))) := by
  cases hpp : updatePostedProps prop mode desired props with
  | none =>
    rw [updateRequestFields, hpp] at hf
    cases hf
  | some posted =>
    rw [updateRequestFields, hpp] at hf
    simp only [Option.map_some', Option.some.injEq] at hf
    subst hf
    refine ⟨?_, ?_, ?_, fun raw des => rfl⟩
    · intro k v hkv hne
      apply List.mem_cons_of_mem
      apply List.mem_cons_of_mem
      apply List.mem_append_left
      exact List.mem_map.2 ⟨(k, v), updatePostedProps_mem_other hpp k v hkv hne, rfl⟩
    · intro pv tv hkv ht
      apply List.mem_cons_of_mem
      apply List.mem_cons_of_mem
      apply List.mem_append_left
      exact List.mem_map.2 ⟨(prop, tv), updatePostedProps_mem_target hpp pv tv hkv ht, rfl⟩
    · apply List.mem_cons_of_mem
      apply List.mem_cons_of_mem
      apply List.mem_append_right
      exact List.mem_singleton.2 rfl

/-- Witness for C6 at a concrete two-property map, `array` mode. -/
theorem C6_update_posts_full_property_map_witness :
    (("a", toFieldVal (ε := Nat) (.s "x")) ∈
        [("apply", FieldV.fs "true"), ("action", FieldV.fs "ajaxConfigManager"),
         ("a", FieldV.fs "x"), ("p", FieldV.fl [2]),
         ("propertylist", FieldV.fs (joinComma ["a", "p"]))]) ∧
    (("propertylist", FieldV.fs (joinComma ["a", "p"])) ∈
        [("apply", FieldV.fs "true"), ("action", FieldV.fs "ajaxConfigManager"),
         ("a", FieldV.fs "x"), ("p", FieldV.fl [2]),
         ("propertylist", FieldV.fs (joinComma ["a", "p"]))]) := by
  have h := C6_update_posts_full_property_map
    ([("a", PVal.s "x"), ("p", PVal.arr [1])] : List (String × PVal Nat))
    "p" .array (.arr [2])
    [("apply", FieldV.fs "true"), ("action", FieldV.fs "ajaxConfigManager"),
     ("a", FieldV.fs "x"), ("p", FieldV.fl [2]),
     ("propertylist", FieldV.fs (joinComma ["a", "p"]))]
    (by decide)
  exact ⟨h.1 "a" (.s "x") (by decide) (by decide), h.2.2.1⟩

/-- The probe loop returns the first candidate that authenticates: it
authenticates, and every candidate before it in list order does not. -/
theorem firstValid_spec (auth : String → Nat) :
    ∀ (l : List String) (p : String), firstValid auth l = some p →
      auth p = 200 ∧ ∃ l1 l2, l = l1 ++ p :: l2 ∧ ∀ q ∈ l1, auth q ≠ 200 := by
  intro l
  induction l with
  | nil =>
    intro p h
    cases h
  | cons q qs ih =>
    intro p h
    rw [firstValid] at h
    by_cases hq : auth q = 200
    · rw [if_pos hq] at h
      obtain rfl := Option.some.inj h
      exact ⟨hq, [], qs, rfl, by simp⟩
    · rw [if_neg hq] at h
      obtain ⟨h200, l1, l2, hsplit, hall⟩ := ih p h
      refine ⟨h200, q :: l1, l2, by rw [hsplit]; rfl, ?_⟩
      intro x hx
      rcases List.mem_cons.1 hx with rfl | hx2
      · exact hq
      · exact hall x hx2

/-- Claim C8: the password module probes the candidate old passwords in
list order and uses the first that authenticates as the old password of
the change POST; with no authenticating candidate it fails fatally when
`ignore_err` is false and exits ok unchanged when `ignore_err` is true. -/
theorem C8_password_probe_order (auth : String → Nat) (newPw : String)
    (olds : List String) (ignoreErr : Bool) (setStatus : Nat)
    (hnew : auth newPw ≠ 200) :
    (∀ p, firstValid auth olds = some p →
      (auth p = 200 ∧
       (∃ l1 l2, olds = l1 ++ p :: l2 ∧ ∀ q ∈ l1, auth q ≠ 200) ∧
       (passwordModuleRun auth newPw olds ignoreErr setStatus).changePost =
         some (p, newPw))) ∧
    (firstValid auth olds = none →
      (ignoreErr = false →
        passwordModuleRun auth newPw olds ignoreErr setStatus =
          ⟨none, .fail "Neither old nor new passwords are valid"⟩) ∧
      (ignoreErr = true →
        passwordModuleRun auth newPw olds ignoreErr setStatus =
          ⟨none, .ok false⟩)) := by
  constructor
  · intro p hp
    obtain ⟨h200, hord⟩ := firstValid_spec auth olds p hp
    refine ⟨h200, hord, ?_⟩
    by_cases hs : setStatus = 200 <;>
      simp [passwordModuleRun, hnew, hp, hs]
  · intro hp
    constructor <;> intro hie <;> simp [passwordModuleRun, hnew, hp, hie]

/-- Witness for C8: candidate `a` fails, `b` authenticates; the change
POST carries `b` as the old password. -/
theorem C8_password_probe_order_witness :
    ((fun p => if p = "b" then 200 else 401) "n" ≠ 200) ∧
    (passwordModuleRun (fun p => if p = "b" then 200 else 401) "n" ["a", "b"]
        false 200).changePost = some ("b", "n") := by
  refine ⟨by decide, ?_⟩
  exact ((C8_password_probe_order (fun p => if p = "b" then 200 else 401) "n"
    ["a", "b"] false 200 (by decide)).1 "b" (by decide)).2.2

/-- Claim C9: when the new password already authenticates (probe returns
200) the module exits immediately with changed=false and never issues the
password-change POST. -/
theorem C9_new_password_short_circuit (auth : String → Nat) (newPw : String)
    (olds : List String) (ignoreErr : Bool) (setStatus : Nat)
    (h : auth newPw = 200) :
    passwordModuleRun auth newPw olds ignoreErr setStatus = ⟨none, .ok false⟩ := by
  simp [passwordModuleRun, h]

/-- Witness for C9 at a constant-200 authenticator. -/
theorem C9_new_password_short_circuit_witness :
    passwordModuleRun (fun _ => 200) "n" ["x"] false 500 = ⟨none, .ok false⟩ :=
  C9_new_password_short_circuit (fun _ => 200) "n" ["x"] false 500 rfl

/-- Claim C5: with state=present, when the upload succeeds (string code 200)
and the install step fails, the module issues the remove for the uploaded
package name and reports failure; the issued requests are exactly the
linear sequence existence-check, (validate,) upload, install, remove. -/
theorem C5_failed_install_rollback (force : Bool) (listResp : PkgListResp)
    (pkgName : String) (validateOn : Bool) (validateCode : String)
    (upResp : PkgXmlResp) (instCode : String)
    (hgo : force = true ∨ pgkExist listResp pkgName = false)
    (hval : validateOn = false ∨ validateCode = "200")
    (hup : upResp.code = "200") (hinst : instCode ≠ "200") :
    packmgrPresentRun force listResp pkgName validateOn validateCode upResp
        instCode =
      ((if force then [] else [.listPkgs]) ++
        (if validateOn then [.validate] else []) ++
        [.upload, .installCmd upResp.name, .removeCmd upResp.name],
       .fail "Installation package is failed") ∧
    pkgInstall upResp instCode =
      ([.upload, .installCmd upResp.name, .removeCmd upResp.name], false) := by
  have hpkg : pkgInstall upResp instCode =
      ([.upload, .installCmd upResp.name, .removeCmd upResp.name], false) := by
    simp [pkgInstall, hup, hinst]
  have hnval : ¬(validateOn = true ∧ validateCode ≠ "200") := by
    rcases hval with h | h
    · intro hc
      rw [h] at hc
      exact Bool.false_ne_true hc.1
    · intro hc
      exact hc.2 h
  refine ⟨?_, hpkg⟩
  simp only [packmgrPresentRun, if_pos hgo, if_neg hnval, hpkg]
  simp

/-- Witness for C5: forced install, no validation, upload ok, install
fails; the remove for the uploaded name is issued last. -/
theorem C5_failed_install_rollback_witness :
    packmgrPresentRun true ⟨500, [], []⟩ "t" false "x" ⟨"200", "tn"⟩ "500" =
      ([.upload, .installCmd "tn", .removeCmd "tn"],
       .fail "Installation package is failed") := by
  have h := (C5_failed_install_rollback true ⟨500, [], []⟩ "t" false "x"
    ⟨"200", "tn"⟩ "500" (Or.inl rfl) (Or.inl rfl) rfl (by decide)).1
  simpa using h

/-- Claim C10: with a groups list, `everyone` is appended when not already
listed, so the membership the module creates or compares against always
contains `everyone`. -/
theorem C10_everyone_always_included (groups : List String)
    (userId firstName lastName password : String) :
    "everyone" ∈ effectiveGroups groups ∧
    ("everyone" ∉ groups → effectiveGroups groups = groups ++ ["everyone"]) ∧
    ("membership", "everyone") ∈
      createUserFields userId firstName lastName password
        (effectiveGroups groups) ∧
    "everyone" ∈ pySort (effectiveGroups groups) := by
  have h1 : "everyone" ∈ effectiveGroups groups := by
    by_cases h : "everyone" ∈ groups
    · simp [effectiveGroups, h]
    · simp [effectiveGroups, h]
  refine ⟨h1, ?_, ?_, ?_⟩
  · intro h
    simp [effectiveGroups, h]
  · apply List.mem_append_right
    exact List.mem_map.2 ⟨"everyone", h1, rfl⟩
  · exact ((pySort_perm (effectiveGroups groups)).mem_iff).2 h1

/-- Witness for C10 at the singleton group list `[g]`. -/
theorem C10_everyone_always_included_witness :
    ("everyone" ∉ (["g"] : List String)) ∧
    effectiveGroups ["g"] = ["g", "everyone"] ∧
    ("membership", "everyone") ∈
      createUserFields "u" "f" "l" "pw" (effectiveGroups ["g"]) := by
  have h := C10_everyone_always_included ["g"] "u" "f" "l" "pw"
  exact ⟨by decide, h.2.1 (by decide), h.2.2.1⟩

/-- The match counter reaches the number of desired fields exactly when
the instance agrees on every desired field. -/
theorem vMatchCount_spec (inst : FInstance) :
    ∀ (value : List (String × FVal)) (n : Nat),
      vMatchCount inst value = .ok n →
      n ≤ value.length ∧ (n = value.length ↔ instAgrees inst value = true) := by
  intro value
  induction value with
  | nil =>
    intro n h
    simp only [vMatchCount] at h
    injection h with h2
    subst h2
    exact ⟨Nat.le_refl 0, by simp [instAgrees]⟩
  | cons kv rest ih =>
    intro n h
    obtain ⟨k, v⟩ := kv
    simp only [vMatchCount] at h
    cases hl : inst.lookup k with
    | none =>
      simp only [hl] at h
      exact Except.noConfusion h
    | some w =>
      simp only [hl] at h
      cases hrec : vMatchCount inst rest with
      | error e =>
        simp only [hrec] at h
        exact Except.noConfusion h
      | ok m =>
        simp only [hrec] at h
        obtain ⟨hle, hiff⟩ := ih m hrec
        have hcons : instAgrees inst ((k, v) :: rest) =
            (decide (inst.lookup k = some (canonV v)) && instAgrees inst rest) := by
          simp [instAgrees]
        by_cases hc : canonV v = w
        · rw [if_pos hc] at h
          injection h with h2
          subst h2
          have hhead : decide (inst.lookup k = some (canonV v)) = true := by
            simp [hl, hc]
          refine ⟨by simpa using Nat.succ_le_succ hle, ?_⟩
          constructor
          · intro hmn
            have hm : m = rest.length := by
              simpa using hmn
            rw [hcons, hhead, hiff.1 hm]
            rfl
          · intro hag
            rw [hcons, hhead] at hag
            have : m = rest.length := hiff.2 (by simpa using hag)
            simp [this]
        · rw [if_neg hc] at h
          injection h with h2
          subst h2
          have hhead : decide (inst.lookup k = some (canonV v)) = false := by
            simp [hl]
            exact fun e => hc e.symm
          refine ⟨Nat.le_succ_of_le hle, ?_⟩
          constructor
          · intro hmn
            exfalso
            rw [List.length_cons] at hmn
            omega
          · intro hag
            rw [hcons, hhead] at hag
            cases hag

/-- The outer matcher loop counts the agreeing instances and keeps the
name of the last one. -/
theorem fMatchLoop_spec (value : List (String × FVal)) :
    ∀ (insts : List (String × FInstance)) (c : Nat) (fac : String)
      (res : Nat × String),
      fMatchLoop value c fac insts = .ok res →
      res.1 = c +
        ((insts.filter (fun fd => instAgrees fd.2 value)).map Prod.fst).length ∧
      res.2 =
        lastD ((insts.filter (fun fd => instAgrees fd.2 value)).map Prod.fst)
          fac := by
  intro insts
  induction insts with
  | nil =>
    intro c fac res h
    simp only [fMatchLoop] at h
    injection h with h2
    subst h2
    simp [lastD]
  | cons fd rest ih =>
    intro c fac res h
    obtain ⟨f, d⟩ := fd
    simp only [fMatchLoop] at h
    cases hv : vMatchCount d value with
    | error e =>
      simp only [hv] at h
      exact Except.noConfusion h
    | ok n =>
      simp only [hv] at h
      obtain ⟨hle, hiff⟩ := vMatchCount_spec d value n hv
      by_cases hn : n = value.length
      · rw [if_pos hn] at h
        have hag : instAgrees d value = true := hiff.1 hn
        obtain ⟨h1, h2⟩ := ih (c + 1) f res h
        constructor
        · rw [h1, List.filter_cons, if_pos hag]
          simp only [List.map_cons, List.length_cons]
          omega
        · rw [h2, List.filter_cons, if_pos hag]
          rfl
      · rw [if_neg hn] at h
        have hag : instAgrees d value = false := by
          cases hb : instAgrees d value
          · rfl
          · exact absurd (hiff.2 hb) hn
        obtain ⟨h1, h2⟩ := ih c fac res h
        constructor
        · rw [h1, List.filter_cons, if_neg (by simp [hag])]
        · rw [h2, List.filter_cons, if_neg (by simp [hag])]

/-- Claim C4: the factory matcher succeeds with the unique instance when
exactly one instance agrees on every desired field, reports no match when
none agrees, and fails fatally iff more than one agrees (all under the
hypothesis that the Python run returns, i.e. raises no `KeyError`). -/
theorem C4_factory_match_classification (instances : List (String × FInstance))
    (value : List (String × FVal)) (res : FMatch)
    (h : findFactoryMatch instances value = .ok res) :
    (((instances.filter (fun fd => instAgrees fd.2 value)).map Prod.fst) = [] →
      res = .noMatch) ∧
    (∀ f,
      ((instances.filter (fun fd => instAgrees fd.2 value)).map Prod.fst) = [f] →
      res = .unique f) ∧
    (res = .ambiguous ↔
      2 ≤ ((instances.filter (fun fd => instAgrees fd.2 value)).map Prod.fst).length) := by
  rw [findFactoryMatch] at h
  cases hloop : fMatchLoop value 0 "" instances with
  | error e => rw [hloop] at h; cases h
  | ok cf =>
    rw [hloop] at h
    obtain ⟨c, fac⟩ := cf
    obtain ⟨hc, hfac⟩ := fMatchLoop_spec value instances 0 "" (c, fac) hloop
    simp only at hc hfac
    rw [Nat.zero_add] at hc
    match c, h with
    | 0, h =>
      injection h with h2
      subst h2
      refine ⟨fun _ => rfl, ?_, ?_⟩
      · intro f hf
        rw [hf] at hc
        cases hc
      · constructor
        · intro habs
          cases habs
        · intro hlen
          rw [← hc] at hlen
          omega
    | 1, h =>
      injection h with h2
      subst h2
      refine ⟨?_, ?_, ?_⟩
      · intro hnil
        rw [hnil] at hc
        cases hc
      · intro f hf
        rw [hfac, hf]
        rfl
      · constructor
        · intro habs
          cases habs
        · intro hlen
          rw [← hc] at hlen
          omega
    | (m + 2), h =>
      injection h with h2
      subst h2
      refine ⟨?_, ?_, ?_⟩
      · intro hnil
        rw [hnil] at hc
        cases hc
      · intro f hf
        rw [hf] at hc
        cases hc
      · exact ⟨fun _ => by omega, fun _ => rfl⟩

/-- Witness for C4: two instances, exactly one agreeing with the desired
fields (an integer compared as a string). -/
theorem C4_factory_match_classification_witness :
    findFactoryMatch
        [("f1", [("k", "5"), ("j", "y")]), ("f2", [("k", "6"), ("j", "y")])]
        [("k", FVal.int 5)] = .ok (.unique "f1") ∧
    FMatch.unique "f1" = .unique "f1" := by
  refine ⟨rfl, ?_⟩
  exact (C4_factory_match_classification
    [("f1", [("k", "5"), ("j", "y")]), ("f2", [("k", "6"), ("j", "y")])]
    [("k", FVal.int 5)] (.unique "f1") rfl).2.1 "f1" rfl

/-- Claim C2 is false as stated: probing candidate `a` returns 401 (a
non-2xx status), yet the password module silently continues to the next
candidate and finishes with a successful exit, so not every non-2xx
response is treated as a fatal failure. -/
theorem C2_fatal_non2xx_counterexample :
    ((fun p => if p = "b" then 200 else 401) "a" = 401) ∧
    (¬(200 ≤ 401 ∧ 401 ≤ 299)) ∧
    passwordModuleRun (fun p => if p = "b" then 200 else 401) "n" ["a", "b"]
        false 200 = ⟨some ("b", "n"), .ok true⟩ := by
  refine ⟨rfl, by omega, ?_⟩
  decide

/-- Claim C2 amended: non-200 responses to the mutating POSTs (bundle
action, password change, package install) are fatal user-reported
failures, and no request is ever retried; but the package existence check
never consults the HTTP status at all, and the password module probe
GETs treat a non-2xx response as an unauthenticated candidate and
continue. -/
theorem C2_fatal_non2xx_amended :
    (∀ (s1 s2 : Nat) (names dns : List String) (n : String),
      pgkExist ⟨s1, names, dns⟩ n = pgkExist ⟨s2, names, dns⟩ n) ∧
    (∀ (auth : String → Nat) (newPw : String) (olds : List String)
        (ie : Bool) (p : String),
      auth newPw ≠ 200 → firstValid auth olds = some p →
      passwordModuleRun auth newPw olds ie 200 = ⟨some (p, newPw), .ok true⟩) ∧
    (∀ (a : BndAction) (r : BndResp),
      (bundleModuleRun a r).posts ≠ [] → r.postStatus ≠ 200 →
      (bundleModuleRun a r).exit = .fail "failed to perform action on bundle") ∧
    (∀ (auth : String → Nat) (newPw : String) (olds : List String) (ie : Bool)
        (st : Nat) (p : String),
      auth newPw ≠ 200 → firstValid auth olds = some p → st ≠ 200 →
      (passwordModuleRun auth newPw olds ie st).exit =
        .fail "failed to change password") ∧
    (∀ (force : Bool) (listResp : PkgListResp) (pkgName vc : String)
        (upResp : PkgXmlResp) (instCode : String),
      (force = true ∨ pgkExist listResp pkgName = false) →
      upResp.code ≠ "200" →
      (packmgrPresentRun force listResp pkgName false vc upResp instCode).2 =
        .fail "Installation package is failed") ∧
    (∀ (a : BndAction) (r : BndResp), (bundleModuleRun a r).posts.length ≤ 1) := by
  refine ⟨?_, ?_, ?_, ?_, ?_, ?_⟩
  · intro s1 s2 names dns n
    rfl
  · intro auth newPw olds ie p h1 h2
    simp [passwordModuleRun, h1, h2]
  · intro a r hp hs
    by_cases h1 : r.fetchStatus = 200
    · cases a <;> by_cases h2 : r.fetchState = "Active" <;>
        simp [bundleModuleRun, getBndStatus, h1, h2, hs] at hp ⊢
    · simp [bundleModuleRun, getBndStatus, h1] at hp
  · intro auth newPw olds ie st p h1 h2 h3
    simp [passwordModuleRun, h1, h2, h3]
  · intro force listResp pkgName vc upResp instCode hgo hup
    simp [packmgrPresentRun, hgo, pkgInstall, hup]
  · intro a r
    by_cases h1 : r.fetchStatus = 200 <;> cases a <;>
      by_cases h2 : r.fetchState = "Active" <;>
      by_cases h3 : r.postStatus = 200 <;>
      simp [bundleModuleRun, getBndStatus, h1, h2, h3]

/-- Witness for the amended C2: a 500 on the package listing changes
nothing about the existence result, and a 503 on the bundle action POST
is a fatal failure. -/
theorem C2_fatal_non2xx_amended_witness :
    pgkExist ⟨500, ["x"], []⟩ "x" = pgkExist ⟨200, ["x"], []⟩ "x" ∧
    (bundleModuleRun .refresh ⟨200, "Active", 503⟩).exit =
      .fail "failed to perform action on bundle" := by
  refine ⟨C2_fatal_non2xx_amended.1 500 200 ["x"] [] "x", ?_⟩
  exact C2_fatal_non2xx_amended.2.2.1 .refresh ⟨200, "Active", 503⟩
    (by decide) (by decide)

end AemModules
